import Mathlib

/-!
# Verification of the Wordcab transcribe core (shallow embedding)

This file embeds, in Lean 4, the parts of the `wordcab-transcribe`
repository that its specification makes claims about:

* `DiarizeService.get_contiguous_stamps` and `DiarizeService.merge_stamps`
  (the two-phase speaker-stamp reconciler),
* the duration-adaptive diarization parameter selection inside
  `DiarizeService.__call__` together with the defaults computed in
  `DiarizeService.__init__`,
* the single-channel transcription path of `TranscribeService.__call__`
  (prompt construction and the one-shot fallback retry),
* `TranscribeService.multi_channel` (per-word start/end rewriting),
* `utils.early_return`,
* the empty-VAD early exit of `DiarizeService.__call__`,
* a model of the device pool's acquire/release discipline.

Python floats are embedded as rationals; Python lists as Lean lists; the
neural models (segmentation, clustering, whisper) as opaque function
parameters; exceptions as explicit error values.
-/

/-- A speaker stamp `(start, end, speaker)` as produced by the clustering
module and consumed by the reconciler.  The Python tuples
`Tuple[float, float, int]` are embedded with rationals for the two float
time fields; `stop` embeds the source's `end` field (a Lean keyword). -/
structure Stamp where
  start : ℚ
  stop : ℚ
  speaker : ℤ
deriving DecidableEq, Repr

/-- Loop body of `DiarizeService.get_contiguous_stamps`: the source walks
adjacent pairs, and when `end > next_start` it rewrites
`stamps[i + 1] = (avg, next_end, next_speaker)` in place (so the rewritten
start takes part in the next comparison) and emits `(start, avg, speaker)`;
otherwise it emits `stamps[i]` unchanged; the last element is emitted as is.
Here `cur` is the (possibly rewritten) element the loop is currently
comparing against the remaining list. -/
def contiguousGo (cur : Stamp) : List Stamp → List Stamp
  | [] => [cur]
  | next :: rest =>
    if next.start < cur.stop then
      let avg := (next.start + cur.stop) / 2
      ⟨cur.start, avg, cur.speaker⟩ :: contiguousGo ⟨avg, next.stop, next.speaker⟩ rest
    else
      cur :: contiguousGo next rest

/-- `DiarizeService.get_contiguous_stamps` (Phase A of the reconciler).
The source indexes `stamps[-1]` and so is undefined on the empty list;
the spec requires callers to special-case empty input, and every claim
below assumes a non-empty argument, so the empty case is totalised to `[]`. -/
def get_contiguous_stamps : List Stamp → List Stamp
  | [] => []
  | s :: rest => contiguousGo s rest

/-- Loop body of `DiarizeService.merge_stamps`: when
`end == next_start and speaker == next_speaker` the source rewrites
`stamps[i + 1] = (start, next_end, next_speaker)` (extending the next
segment backwards) and drops the current element from the output;
otherwise it emits the current element; the last element is emitted as is. -/
def mergeGo (cur : Stamp) : List Stamp → List Stamp
  | [] => [cur]
  | next :: rest =>
    if cur.stop = next.start ∧ cur.speaker = next.speaker then
      mergeGo ⟨cur.start, next.stop, next.speaker⟩ rest
    else
      cur :: mergeGo next rest

/-- `DiarizeService.merge_stamps` (Phase B of the reconciler), totalised to
`[]` on the empty list exactly as `get_contiguous_stamps` is. -/
def merge_stamps : List Stamp → List Stamp
  | [] => []
  | s :: rest => mergeGo s rest

/-- Chronological order of a stamp list: starts are non-decreasing. -/
def SortedByStart (l : List Stamp) : Prop :=
  List.Chain' (fun a b => a.start ≤ b.start) l

/-- Contiguity: every adjacent pair satisfies `end[i] ≤ start[i+1]`. -/
def Contiguous (l : List Stamp) : Prop :=
  List.Chain' (fun a b => a.stop ≤ b.start) l

theorem contiguousGo_ne_nil (cur : Stamp) (l : List Stamp) :
    contiguousGo cur l ≠ [] := by
  cases l with
  | nil => simp [contiguousGo]
  | cons next rest =>
    simp only [contiguousGo]
    split <;> simp

/-- The head of the Phase-A loop output keeps the current element's start. -/
theorem contiguousGo_head_start (cur : Stamp) (l : List Stamp) :
    ∀ x ∈ (contiguousGo cur l).head?, x.start = cur.start := by
  cases l with
  | nil => simp [contiguousGo]
  | cons next rest =>
    simp only [contiguousGo]
    split <;> simp

theorem contiguousGo_contiguous (l : List Stamp) : ∀ cur : Stamp,
    Contiguous (contiguousGo cur l) := by
  induction l with
  | nil => intro cur; simp [contiguousGo, Contiguous]
  | cons next rest ih =>
    intro cur
    simp only [contiguousGo]
    split
    · refine List.chain'_cons'.mpr ⟨?_, ih _⟩
      intro y hy
      have := contiguousGo_head_start ⟨(next.start + cur.stop) / 2, next.stop, next.speaker⟩
        rest y hy
      simp [this]
    · refine List.chain'_cons'.mpr ⟨?_, ih next⟩
      intro y hy
      have := contiguousGo_head_start next rest y hy
      rw [this]
      linarith [not_lt.mp (by assumption : ¬ next.start < cur.stop)]

/-- C1: for every chronologically ordered (by start) non-empty input, the
Phase-A output of `get_contiguous_stamps` is contiguous: every adjacent
pair of output segments satisfies `end[i] ≤ start[i+1]`. -/
theorem c1_phaseA_contiguous (l : List Stamp) (hne : l ≠ [])
    (hsorted : SortedByStart l) :
    Contiguous (get_contiguous_stamps l) := by
  cases l with
  | nil => exact absurd rfl hne
  | cons s rest => exact contiguousGo_contiguous rest s

theorem c1_phaseA_contiguous_witness :
    ([⟨0, 5, 0⟩, ⟨4, 9, 1⟩, ⟨9, 19/2, 0⟩] : List Stamp) ≠ [] ∧
      SortedByStart [⟨0, 5, 0⟩, ⟨4, 9, 1⟩, ⟨9, 19/2, 0⟩] ∧
      Contiguous (get_contiguous_stamps [⟨0, 5, 0⟩, ⟨4, 9, 1⟩, ⟨9, 19/2, 0⟩]) :=
  ⟨by simp, by norm_num [SortedByStart, List.chain'_cons],
    c1_phaseA_contiguous _ (by simp) (by norm_num [SortedByStart, List.chain'_cons])⟩

/-- Sortedness of a stamp list by end times. -/
def SortedByStop (l : List Stamp) : Prop :=
  List.Chain' (fun a b => a.stop ≤ b.stop) l

/-- C4 counterexample: the input `[(0, 10, 0), (1, 2, 1)]` is non-empty,
chronologically ordered by start, and every segment satisfies
`start ≤ end`, yet Phase A outputs `[(0, 11/2, 0), (11/2, 2, 1)]`, whose
second segment has `start > end`: the averaged boundary of a segment
nested inside its predecessor overshoots that segment's end. -/
theorem c4_counterexample :
    ([⟨0, 10, 0⟩, ⟨1, 2, 1⟩] : List Stamp) ≠ [] ∧
      SortedByStart [⟨0, 10, 0⟩, ⟨1, 2, 1⟩] ∧
      (∀ s ∈ ([⟨0, 10, 0⟩, ⟨1, 2, 1⟩] : List Stamp), s.start ≤ s.stop) ∧
      ¬ (∀ s ∈ get_contiguous_stamps [⟨0, 10, 0⟩, ⟨1, 2, 1⟩], s.start ≤ s.stop) := by
  refine ⟨by simp, by norm_num [SortedByStart, List.chain'_cons], ?_, ?_⟩
  · intro s hs
    simp only [List.mem_cons, List.not_mem_nil, or_false] at hs
    rcases hs with h | h <;> simp [h]
  · intro h
    have := h ⟨11/2, 2, 1⟩ (by norm_num [get_contiguous_stamps, contiguousGo])
    norm_num at this

/-- Invariant-carrying form of the Phase-A loop: if the current element
satisfies `start ≤ end`, its start is bounded by `2·start − end ≤` the next
untouched start, and the untouched remainder is sorted by start, dominated
in end time, and well-formed, then every emitted stamp satisfies
`start ≤ end`. -/
theorem contiguousGo_start_le_stop (rest : List Stamp) : ∀ cur : Stamp,
    cur.start ≤ cur.stop →
    (∀ x ∈ rest.head?, 2 * cur.start - cur.stop ≤ x.start) →
    SortedByStart rest →
    List.Chain' (fun a b => a.stop ≤ b.stop) (cur :: rest) →
    (∀ s ∈ rest, s.start ≤ s.stop) →
    ∀ s ∈ contiguousGo cur rest, s.start ≤ s.stop := by
  induction rest with
  | nil =>
    intro cur h1 _ _ _ _ s hs
    simp only [contiguousGo, List.mem_singleton] at hs
    simpa [hs] using h1
  | cons next rest2 ih =>
    intro cur h1 h2 h3 h4 h5 s hs
    have hnx : 2 * cur.start - cur.stop ≤ next.start := h2 next (by simp)
    have hstop : cur.stop ≤ next.stop :=
      (List.chain'_cons'.mp h4).1 next (by simp)
    have h4' : List.Chain' (fun a b => a.stop ≤ b.stop) (next :: rest2) :=
      (List.chain'_cons'.mp h4).2
    have h3head : ∀ x ∈ rest2.head?, next.start ≤ x.start :=
      (List.chain'_cons'.mp h3).1
    have h3' : SortedByStart rest2 := (List.chain'_cons'.mp h3).2
    simp only [contiguousGo] at hs
    split at hs
    · rename_i hov
      rcases List.mem_cons.mp hs with h | h
      · subst h
        simp only
        linarith
      · refine ih ⟨(next.start + cur.stop) / 2, next.stop, next.speaker⟩
          (by simp only; linarith) ?_ h3' ?_ (fun t ht => h5 t (List.mem_cons_of_mem _ ht)) s h
        · intro x hx
          have := h3head x hx
          simp only
          linarith
        · refine List.chain'_cons'.mpr ⟨?_, (List.chain'_cons'.mp h4').2⟩
          intro x hx
          have := (List.chain'_cons'.mp h4').1 x hx
          simpa using this
    · rename_i hov
      rcases List.mem_cons.mp hs with h | h
      · subst h; exact h1
      · refine ih next (h5 next (by simp)) ?_ h3' h4'
          (fun t ht => h5 t (List.mem_cons_of_mem _ ht)) s h
        intro x hx
        have hx' := h3head x hx
        have := h5 next (by simp)
        linarith

/-- C4 amended: if the non-empty input is chronologically ordered by start
AND has non-decreasing end times (no segment nested strictly inside its
predecessor), and every input segment satisfies `start ≤ end`, then every
segment output by Phase A satisfies `start ≤ end`.  (As stated, with
ordering by start alone, the claim is refuted by `c4_counterexample`.) -/
theorem c4_amended_phaseA_wellformed (l : List Stamp) (hne : l ≠ [])
    (h1 : SortedByStart l) (h2 : SortedByStop l)
    (h3 : ∀ s ∈ l, s.start ≤ s.stop) :
    ∀ s ∈ get_contiguous_stamps l, s.start ≤ s.stop := by
  cases l with
  | nil => exact absurd rfl hne
  | cons x xs =>
    have hx : x.start ≤ x.stop := h3 x (by simp)
    refine contiguousGo_start_le_stop xs x hx ?_
      (List.chain'_cons'.mp h1).2 h2 (fun t ht => h3 t (List.mem_cons_of_mem _ ht))
    intro y hy
    have := (List.chain'_cons'.mp h1).1 y hy
    linarith

theorem c4_amended_phaseA_wellformed_witness :
    ([⟨0, 5, 0⟩, ⟨4, 9, 1⟩] : List Stamp) ≠ [] ∧
      SortedByStart [⟨0, 5, 0⟩, ⟨4, 9, 1⟩] ∧
      SortedByStop [⟨0, 5, 0⟩, ⟨4, 9, 1⟩] ∧
      (∀ s ∈ get_contiguous_stamps [⟨0, 5, 0⟩, ⟨4, 9, 1⟩], s.start ≤ s.stop) :=
  ⟨by simp, by norm_num [SortedByStart, List.chain'_cons],
    by norm_num [SortedByStop, List.chain'_cons],
    c4_amended_phaseA_wellformed _ (by simp)
      (by norm_num [SortedByStart, List.chain'_cons])
      (by norm_num [SortedByStop, List.chain'_cons])
      (by intro s hs
          simp only [List.mem_cons, List.not_mem_nil, or_false] at hs
          rcases hs with h | h <;> norm_num [h])⟩

/-- No adjacent pair of the list both shares a boundary (`end[i] =
start[i+1]`) and a speaker — i.e. Phase B's merge condition fires nowhere. -/
def NoAdjacentMerge (l : List Stamp) : Prop :=
  List.Chain' (fun a b => ¬ (a.stop = b.start ∧ a.speaker = b.speaker)) l

/-- On a contiguous list the Phase-A loop never takes its overlap branch,
so it reproduces its input. -/
theorem contiguousGo_eq_of_contiguous (rest : List Stamp) : ∀ cur : Stamp,
    List.Chain' (fun a b => a.stop ≤ b.start) (cur :: rest) →
    contiguousGo cur rest = cur :: rest := by
  induction rest with
  | nil => intro cur _; simp [contiguousGo]
  | cons next rest2 ih =>
    intro cur hc
    have h1 : cur.stop ≤ next.start := (List.chain'_cons'.mp hc).1 next (by simp)
    simp only [contiguousGo, if_neg (not_lt.mpr h1)]
    exact congrArg (cur :: ·) (ih next (List.chain'_cons'.mp hc).2)

/-- When no adjacent pair satisfies the merge condition, the Phase-B loop
reproduces its input. -/
theorem mergeGo_eq_of_noMerge (rest : List Stamp) : ∀ cur : Stamp,
    List.Chain' (fun a b => ¬ (a.stop = b.start ∧ a.speaker = b.speaker))
      (cur :: rest) →
    mergeGo cur rest = cur :: rest := by
  induction rest with
  | nil => intro cur _; simp [mergeGo]
  | cons next rest2 ih =>
    intro cur hc
    have h1 : ¬ (cur.stop = next.start ∧ cur.speaker = next.speaker) :=
      (List.chain'_cons'.mp hc).1 next (by simp)
    simp only [mergeGo, if_neg h1]
    exact congrArg (cur :: ·) (ih next (List.chain'_cons'.mp hc).2)

/-- C5: the two-phase reconciliation (`get_contiguous_stamps` followed by
`merge_stamps`) maps every non-empty, already-reconciled sequence — one
that is contiguous and in which no adjacent pair shares both a boundary
and a speaker — to itself, so the composed transform is idempotent once
its fixpoint is reached. -/
theorem c5_reconcile_fixpoint (l : List Stamp) (hne : l ≠ [])
    (hc : Contiguous l) (hm : NoAdjacentMerge l) :
    merge_stamps (get_contiguous_stamps l) = l := by
  cases l with
  | nil => exact absurd rfl hne
  | cons x xs =>
    have ha : get_contiguous_stamps (x :: xs) = x :: xs :=
      contiguousGo_eq_of_contiguous xs x hc
    rw [ha]
    exact mergeGo_eq_of_noMerge xs x hm

theorem c5_reconcile_fixpoint_witness :
    ([⟨0, 4, 0⟩, ⟨4, 6, 1⟩, ⟨7, 8, 1⟩] : List Stamp) ≠ [] ∧
      Contiguous [⟨0, 4, 0⟩, ⟨4, 6, 1⟩, ⟨7, 8, 1⟩] ∧
      NoAdjacentMerge [⟨0, 4, 0⟩, ⟨4, 6, 1⟩, ⟨7, 8, 1⟩] ∧
      merge_stamps (get_contiguous_stamps [⟨0, 4, 0⟩, ⟨4, 6, 1⟩, ⟨7, 8, 1⟩]) =
        [⟨0, 4, 0⟩, ⟨4, 6, 1⟩, ⟨7, 8, 1⟩] :=
  ⟨by simp, by norm_num [Contiguous, List.chain'_cons],
    by norm_num [NoAdjacentMerge, List.chain'_cons],
    c5_reconcile_fixpoint _ (by simp)
      (by norm_num [Contiguous, List.chain'_cons])
      (by norm_num [NoAdjacentMerge, List.chain'_cons])⟩

/-- Python's `zip(..., strict=True)`: pairs two lists elementwise, raising
(`none`) when the lengths differ. -/
def zipStrict {α β : Type} : List α → List β → Option (List (α × β))
  | [], [] => some []
  | a :: as, b :: bs => (zipStrict as bs).map (fun l => (a, b) :: l)
  | _, _ => none

theorem zipStrict_eq_zip {α β : Type} (as : List α) : ∀ bs : List β,
    as.length = bs.length → zipStrict as bs = some (as.zip bs) := by
  induction as with
  | nil =>
    intro bs h
    cases bs with
    | nil => simp [zipStrict]
    | cons b bs => simp at h
  | cons a as ih =>
    intro bs h
    cases bs with
    | nil => simp at h
    | cons b bs =>
      simp only [List.length_cons, Nat.add_right_cancel_iff] at h
      simp [zipStrict, ih bs h, List.zip_cons_cons]

/-- The configured defaults held by `DiarizeService`: `window_lengths`,
`shift_lengths` and `multiscale_weights` as passed to `__init__`. -/
structure DiarizeDefaults where
  window_lengths : List ℚ
  shift_lengths : List ℚ
  multiscale_weights : List ℚ

/-- `DiarizeService.__init__`'s `default_segmentation_batch_size`: 64 when
the weight list is longer than 3, else 128 when longer than 1, else 256. -/
def default_segmentation_batch_size (weights : List ℚ) : ℕ :=
  if weights.length > 3 then 64
  else if weights.length > 1 then 128
  else 256

/-- The parameters chosen by the duration dispatch of
`DiarizeService.__call__`: the scale dict (window/shift pairs indexed by
scale), the segmentation batch size, and the multiscale weights. -/
structure ScaleParams where
  scale_dict : List (ℚ × ℚ)
  segmentation_batch_size : ℕ
  multiscale_weights : List ℚ
deriving DecidableEq, Repr

/-- Duration-adaptive parameter selection of `DiarizeService.__call__`
(lines 126–151), with the `< 3600` tier reusing the defaults computed in
`__init__`.  `none` embeds the `ValueError` a strict zip of mismatched
lists raises (in the source the default scale dict is built — and would
raise — already at construction). -/
def selectScaleParams (d : DiarizeDefaults) (audio_duration : ℚ) :
    Option ScaleParams :=
  if audio_duration < 3600 then
    (zipStrict d.window_lengths d.shift_lengths).map
      (fun sd => ⟨sd, default_segmentation_batch_size d.multiscale_weights,
        d.multiscale_weights⟩)
  else if audio_duration < 10800 then
    (zipStrict [3.0, 2.5, 2.0, 1.5, 1.0] d.shift_lengths).map
      (fun sd => ⟨sd, 64, d.multiscale_weights⟩)
  else
    some ⟨[(3.0, 0.75), (2.0, 0.5), (1.0, 0.25)], 32, [1.0, 1.0, 1.0]⟩

/-- C3: diarization parameter selection is exactly a function of the audio
duration, with the three tiers and boundary behaviour of the source: for
`duration < 3600` the configured defaults with the weight-length-driven
batch size; for `3600 ≤ duration < 10800` windows `[3, 2.5, 2, 1.5, 1]`
zipped with the default shifts, default weights, batch size 64; for
`10800 ≤ duration` windows `[3, 2, 1]`, shifts `[0.75, 0.5, 0.25]`,
weights `[1, 1, 1]`, batch size 32.  The lower boundary of each tier is
inclusive in the upper tier. -/
theorem c3_parameter_selection (d : DiarizeDefaults) (t : ℚ)
    (hlen : d.window_lengths.length = d.shift_lengths.length)
    (hlen5 : d.shift_lengths.length = 5) :
    (t < 3600 →
      selectScaleParams d t =
        some ⟨d.window_lengths.zip d.shift_lengths,
          if d.multiscale_weights.length > 3 then 64
          else if d.multiscale_weights.length > 1 then 128 else 256,
          d.multiscale_weights⟩) ∧
    (3600 ≤ t → t < 10800 →
      selectScaleParams d t =
        some ⟨([3.0, 2.5, 2.0, 1.5, 1.0] : List ℚ).zip d.shift_lengths,
          64, d.multiscale_weights⟩) ∧
    (10800 ≤ t →
      selectScaleParams d t =
        some ⟨[(3.0, 0.75), (2.0, 0.5), (1.0, 0.25)], 32, [1.0, 1.0, 1.0]⟩) := by
  refine ⟨?_, ?_, ?_⟩
  · intro h1
    simp [selectScaleParams, if_pos h1, zipStrict_eq_zip _ _ hlen,
      default_segmentation_batch_size]
  · intro h1 h2
    have h5 : ([3.0, 2.5, 2.0, 1.5, 1.0] : List ℚ).length = d.shift_lengths.length := by
      simp [hlen5]
    simp [selectScaleParams, if_neg (not_lt.mpr h1), if_pos h2,
      zipStrict_eq_zip _ _ h5]
  · intro h1
    simp [selectScaleParams, if_neg (not_lt.mpr (by linarith : (3600 : ℚ) ≤ t)),
      if_neg (not_lt.mpr h1)]

theorem c3_parameter_selection_witness :
    (35999 / 10 : ℚ) < 3600 ∧
      selectScaleParams ⟨[5, 4, 3, 2, 1], [1, 1, 1, 1, 1], [2, 2, 2, 2, 2]⟩
          (35999 / 10) =
        some ⟨[(5, 1), (4, 1), (3, 1), (2, 1), (1, 1)], 64, [2, 2, 2, 2, 2]⟩ ∧
      selectScaleParams ⟨[5, 4, 3, 2, 1], [1, 1, 1, 1, 1], [2, 2, 2, 2, 2]⟩ 3600 =
        some ⟨[(3, 1), (5/2, 1), (2, 1), (3/2, 1), (1, 1)], 64, [2, 2, 2, 2, 2]⟩ ∧
      selectScaleParams ⟨[5, 4, 3, 2, 1], [1, 1, 1, 1, 1], [2, 2, 2, 2, 2]⟩ 10800 =
        some ⟨[(3, 3/4), (2, 1/2), (1, 1/4)], 32, [1, 1, 1]⟩ := by
  have d01 := (c3_parameter_selection ⟨[5, 4, 3, 2, 1], [1, 1, 1, 1, 1], [2, 2, 2, 2, 2]⟩
    (35999 / 10) (by simp) (by simp)).1 (by norm_num)
  have d02 := (c3_parameter_selection ⟨[5, 4, 3, 2, 1], [1, 1, 1, 1, 1], [2, 2, 2, 2, 2]⟩
    3600 (by simp) (by simp)).2.1 (by norm_num) (by norm_num)
  have d03 := (c3_parameter_selection ⟨[5, 4, 3, 2, 1], [1, 1, 1, 1, 1], [2, 2, 2, 2, 2]⟩
    10800 (by simp) (by simp)).2.2 (by norm_num)
  refine ⟨by norm_num, ?_, ?_, ?_⟩
  · rw [d01]; norm_num [List.zip_cons_cons]
  · rw [d02]; norm_num [List.zip_cons_cons]
  · rw [d03]; norm_num

/-- A word dict as emitted by the pipeline
(`{"start", "end", "word", "score"}`); `stop` embeds `"end"`. -/
structure OutWord where
  start : ℚ
  stop : ℚ
  word : String
  score : ℚ
deriving DecidableEq, Repr

/-- A final utterance dict as produced by `utils.early_return`
(`{"text", "start", "end", "speaker", "words"}`); Python `None` fields are
embedded as `none`. -/
structure Utterance where
  text : String
  start : ℚ
  stop : ℚ
  speaker : Option ℤ
  words : Option (List OutWord)
deriving DecidableEq, Repr

/-- The process-times dict (`{"total", "transcription", "diarization",
"post_processing"}`); the diarization entry may be `None`. -/
structure ProcessTimes where
  total : ℚ
  transcription : ℚ
  diarization : Option ℚ
  post_processing : ℚ
deriving DecidableEq, Repr

/-- `utils.early_return`: the early-return triple for empty audio files. -/
def early_return (duration : ℚ) : List Utterance × ProcessTimes × ℚ :=
  ([⟨"<EMPTY AUDIO>", 0, duration, none, none⟩],
    ⟨0, 0, none, 0⟩,
    duration)

/-- C8: for every duration, the empty-audio early return yields exactly one
placeholder utterance spanning the whole duration (start 0, end the audio
duration) with speaker `null` and no words, and records zero processing
time (total, transcription and post-processing all 0; no diarization time),
returning the duration unchanged — a designed result, not an error. -/
theorem c8_early_return (duration : ℚ) :
    (early_return duration).1.length = 1 ∧
      (∀ u ∈ (early_return duration).1,
        u.start = 0 ∧ u.stop = duration ∧ u.speaker = none ∧ u.words = none) ∧
      (early_return duration).2.1.total = 0 ∧
      (early_return duration).2.1.transcription = 0 ∧
      (early_return duration).2.1.post_processing = 0 ∧
      (early_return duration).2.1.diarization = none ∧
      (early_return duration).2.2 = duration := by
  refine ⟨rfl, ?_, rfl, rfl, rfl, rfl, rfl⟩
  intro u hu
  simp only [early_return, List.mem_singleton] at hu
  simp [hu]

/-- Python's `str.strip()`: drop whitespace from both ends. -/
def pyStrip (s : String) : String :=
  ⟨((s.data.dropWhile Char.isWhitespace).reverse.dropWhile Char.isWhitespace).reverse⟩

/-- The prompt construction of `TranscribeService.__call__` (lines
161–170): a prompt is produced only when `vocab` is a non-empty list whose
FIRST element strips to a non-empty string, in which case ALL vocab
entries (empty ones included) are joined with `", "`, stripped, and
prefixed with `"Vocab: "`; otherwise the prompt is `None`. -/
def buildPrompt : Option (List String) → Option String
  | none => none
  | some [] => none
  | some (w :: rest) =>
    if pyStrip w = "" then none
    else some ("Vocab: " ++ pyStrip (String.intercalate ", " (w :: rest)))

/-- The prompt construction as the spec's words describe it (for the
refinement comparison of C6): the non-empty strings of the vocab joined
with `", "` and prefixed `"Vocab: "`, with an empty or whitespace-only
vocab yielding no prompt. -/
def buildPromptSpec (vocab : Option (List String)) : Option String :=
  match vocab with
  | none => none
  | some v =>
    if v.all (fun w => pyStrip w = "") then none
    else some ("Vocab: " ++ String.intercalate ", " (v.filter (fun w => w ≠ "")))

/-- The `vad_parameters` dict passed on the first transcription pass. -/
structure VadParams where
  threshold : ℚ
  min_speech_duration_ms : ℕ
  min_silence_duration_ms : ℕ
  speech_pad_ms : ℕ
  window_size_samples : ℕ
deriving DecidableEq, Repr

/-- The literal `vad_parameters` of `TranscribeService.__call__`. -/
def defaultVadParams : VadParams := ⟨1/2, 250, 100, 30, 512⟩

/-- The keyword arguments of one `self.model.transcribe(...)` invocation
(the audio itself is fixed inside the model oracle below). -/
structure WhisperArgs where
  language : String
  initial_prompt : Option String
  repetition_penalty : ℚ
  compression_ratio_threshold : ℚ
  log_prob_threshold : ℚ
  no_speech_threshold : ℚ
  condition_on_previous_text : Bool
  suppress_blank : Bool
  word_timestamps : Bool
  vad_filter : Bool
  vad_parameters : Option VadParams
deriving DecidableEq, Repr

/-- The caller-supplied options of `TranscribeService.__call__`. -/
structure TranscribeOptions where
  source_lang : String
  suppress_blank : Bool
  vocab : Option (List String)
  word_timestamps : Bool
  internal_vad : Bool
  repetition_penalty : ℚ
  compression_ratio_threshold : ℚ
  log_prob_threshold : ℚ
  no_speech_threshold : ℚ
  condition_on_previous_text : Bool

/-- Replace only the vocab of a `TranscribeOptions` (used to state that
vocab influences a call through the prompt alone). -/
def setVocab (o : TranscribeOptions) (v : Option (List String)) :
    TranscribeOptions :=
  ⟨o.source_lang, o.suppress_blank, v, o.word_timestamps, o.internal_vad,
    o.repetition_penalty, o.compression_ratio_threshold, o.log_prob_threshold,
    o.no_speech_threshold, o.condition_on_previous_text⟩

/-- The single-channel (non-list audio) path of
`TranscribeService.__call__` (lines 161–216): build the prompt, invoke the
model with the caller's options plus the literal VAD parameter dict; if
that yields no segments, invoke it once more with `suppress_blank=False`,
`word_timestamps=True`, `vad_filter` flipped from the caller's
`internal_vad`, and no VAD parameter dict; convert the resulting segments
with `_asdict`.  The model is an opaque oracle `model`, the segment type
`α` and the `_asdict` conversion are opaque parameters, and the second
component counts how many times the model was invoked. -/
def transcribe_call {α β : Type} (model : WhisperArgs → List α)
    (asdict : α → β) (o : TranscribeOptions) : List β × ℕ :=
  let prompt := buildPrompt o.vocab
  let segments := model ⟨o.source_lang, prompt, o.repetition_penalty,
    o.compression_ratio_threshold, o.log_prob_threshold,
    o.no_speech_threshold, o.condition_on_previous_text, o.suppress_blank,
    o.word_timestamps, o.internal_vad, some defaultVadParams⟩
  if segments.isEmpty then
    ((model ⟨o.source_lang, prompt, o.repetition_penalty,
      o.compression_ratio_threshold, o.log_prob_threshold,
      o.no_speech_threshold, o.condition_on_previous_text, false, true,
      !o.internal_vad, none⟩).map asdict, 2)
  else
    (segments.map asdict, 1)

/-- C2: on the single-channel path, when the first pass yields zero
segments the model is invoked exactly once more — with the VAD filter
flipped from the caller's `internal_vad`, suppress-blank forced off and
word-timestamps forced on — and the fallback's segments are what the call
returns; when the first pass yields segments, there is exactly one
invocation; there is never a third invocation; and zero segments after the
fallback produce an ordinary empty result. -/
theorem c2_fallback_policy {α β : Type} (model : WhisperArgs → List α)
    (asdict : α → β) (o : TranscribeOptions) :
    (transcribe_call model asdict o).2 ≤ 2 ∧
    (model ⟨o.source_lang, buildPrompt o.vocab, o.repetition_penalty,
        o.compression_ratio_threshold, o.log_prob_threshold,
        o.no_speech_threshold, o.condition_on_previous_text, o.suppress_blank,
        o.word_timestamps, o.internal_vad, some defaultVadParams⟩ = [] →
      transcribe_call model asdict o =
        ((model ⟨o.source_lang, buildPrompt o.vocab, o.repetition_penalty,
          o.compression_ratio_threshold, o.log_prob_threshold,
          o.no_speech_threshold, o.condition_on_previous_text, false, true,
          !o.internal_vad, none⟩).map asdict, 2)) ∧
    (model ⟨o.source_lang, buildPrompt o.vocab, o.repetition_penalty,
        o.compression_ratio_threshold, o.log_prob_threshold,
        o.no_speech_threshold, o.condition_on_previous_text, o.suppress_blank,
        o.word_timestamps, o.internal_vad, some defaultVadParams⟩ = [] →
      model ⟨o.source_lang, buildPrompt o.vocab, o.repetition_penalty,
          o.compression_ratio_threshold, o.log_prob_threshold,
          o.no_speech_threshold, o.condition_on_previous_text, false, true,
          !o.internal_vad, none⟩ = [] →
      (transcribe_call model asdict o).1 = []) ∧
    (model ⟨o.source_lang, buildPrompt o.vocab, o.repetition_penalty,
        o.compression_ratio_threshold, o.log_prob_threshold,
        o.no_speech_threshold, o.condition_on_previous_text, o.suppress_blank,
        o.word_timestamps, o.internal_vad, some defaultVadParams⟩ ≠ [] →
      transcribe_call model asdict o =
        ((model ⟨o.source_lang, buildPrompt o.vocab, o.repetition_penalty,
          o.compression_ratio_threshold, o.log_prob_threshold,
          o.no_speech_threshold, o.condition_on_previous_text, o.suppress_blank,
          o.word_timestamps, o.internal_vad, some defaultVadParams⟩).map asdict,
          1)) := by
  refine ⟨?_, ?_, ?_, ?_⟩
  · by_cases h : model ⟨o.source_lang, buildPrompt o.vocab, o.repetition_penalty,
        o.compression_ratio_threshold, o.log_prob_threshold,
        o.no_speech_threshold, o.condition_on_previous_text, o.suppress_blank,
        o.word_timestamps, o.internal_vad, some defaultVadParams⟩ = []
    · simp [transcribe_call, h]
    · simp [transcribe_call, List.isEmpty_iff, h]
  · intro h
    simp [transcribe_call, List.isEmpty_iff, h]
  · intro h1 h2
    simp [transcribe_call, List.isEmpty_iff, h1, h2]
  · intro h
    simp [transcribe_call, List.isEmpty_iff, h]

theorem c2_fallback_policy_witness :
    transcribe_call
        (fun a => if a.vad_filter then [7, 8] else ([] : List ℕ)) id
        ⟨"en", false, none, true, false, 1, 12/5, -1, 3/5, true⟩ =
      ([7, 8], 2) := by
  have h := (c2_fallback_policy
    (fun a => if a.vad_filter then [7, 8] else ([] : List ℕ)) id
    ⟨"en", false, none, true, false, 1, 12/5, -1, 3/5, true⟩).2.1 (by rfl)
  rw [h]
  rfl

/-- C6 counterexample: for `vocab = ["", "a"]` — neither empty nor
whitespace-only — the source yields no prompt at all (it gates on the
FIRST element only), while the claim's description (join the non-empty
strings, prefix `"Vocab: "`) yields `some "Vocab: a"`; moreover for
`vocab = ["a", ""]` the source keeps the empty string in the join and
produces `"Vocab: a,"`, not `"Vocab: a"`. -/
theorem c6_counterexample :
    buildPrompt (some ["", "a"]) = none ∧
      buildPromptSpec (some ["", "a"]) = some "Vocab: a" ∧
      buildPrompt (some ["", "a"]) ≠ buildPromptSpec (some ["", "a"]) ∧
      buildPrompt (some ["a", ""]) = some "Vocab: a," ∧
      buildPromptSpec (some ["a", ""]) = some "Vocab: a" := by
  refine ⟨by decide, by decide, by decide, by decide, by decide⟩

/-- C6 amended: a prompt is produced iff the vocab list is non-empty and
its FIRST entry is not whitespace-only, in which case the prompt is
`"Vocab: "` followed by ALL entries (empty ones included) joined with
`", "` and stripped; and the vocab influences the transcription call only
through the prompt: calls whose vocabs build the same prompt are
indistinguishable. -/
theorem c6_amended_prompt (v : List String) :
    buildPrompt none = none ∧
      (buildPrompt (some v) = none ↔ v = [] ∨ pyStrip v.headI = "") ∧
      (v ≠ [] → pyStrip v.headI ≠ "" →
        buildPrompt (some v) =
          some ("Vocab: " ++ pyStrip (String.intercalate ", " v))) ∧
      (∀ {α β : Type} (model : WhisperArgs → List α) (asdict : α → β)
        (o : TranscribeOptions) (v' v'' : Option (List String)),
        buildPrompt v' = buildPrompt v'' →
        transcribe_call model asdict (setVocab o v') =
          transcribe_call model asdict (setVocab o v'')) := by
  refine ⟨rfl, ?_, ?_, ?_⟩
  · cases v with
    | nil => simp [buildPrompt]
    | cons w rest =>
      simp only [buildPrompt, List.headI]
      constructor
      · intro h
        by_cases hw : pyStrip w = ""
        · exact Or.inr hw
        · simp [hw] at h
      · intro h
        rcases h with h | h
        · exact absurd h (by simp)
        · simp [h]
  · intro hne hw
    cases v with
    | nil => exact absurd rfl hne
    | cons w rest =>
      simp only [List.headI] at hw
      simp [buildPrompt, hw]
  · intro α β model asdict o v' v'' h
    simp only [transcribe_call, setVocab]
    rw [h]

theorem c6_amended_prompt_witness :
    (["a", "b"] : List String) ≠ [] ∧ pyStrip (["a", "b"] : List String).headI ≠ "" ∧
      buildPrompt (some ["a", "b"]) = some "Vocab: a, b" := by
  refine ⟨by decide, by decide, ?_⟩
  have h := (c6_amended_prompt ["a", "b"]).2.2.1 (by decide) (by decide)
  rw [h]
  decide

/-- A word as reported by the whisper model (`word.word`, `word.start`,
`word.end`, `word.probability`). -/
structure WhisperWord where
  word : String
  start : ℚ
  stop : ℚ
  probability : ℚ
deriving DecidableEq, Repr

/-- A segment as reported by the whisper model inside `multi_channel`:
its text and its word list (the model's native segment boundaries are
never read by `multi_channel`). -/
structure WhisperSegment where
  text : String
  words : List WhisperWord
deriving DecidableEq, Repr

/-- The per-segment dict `multi_channel` builds (`{"start", "end", "text",
"words", "speaker"}`). -/
structure MCSegment where
  start : ℚ
  stop : ℚ
  text : String
  words : List OutWord
  speaker : ℤ
deriving DecidableEq, Repr

/-- The Python exception kinds the embedded code can raise. -/
inductive PyError where
  | indexError
  | valueError
deriving DecidableEq, Repr

/-- The per-segment body of the `multi_channel` loop: copies text and the
speaker id, converts each word, then overwrites `start`/`end` with
`words[0]["start"]` / `words[-1]["end"]`.  On a segment with zero words
the subscript `segment_dict["words"][0]` raises a plain `IndexError`,
embedded as `Except.error .indexError`. -/
def segment_to_dict (speaker_id : ℤ) (s : WhisperSegment) :
    Except PyError MCSegment :=
  match s.words with
  | [] => .error .indexError
  | w :: rest =>
    .ok ⟨w.start, (rest.getLastD w).stop, s.text,
      (w :: rest).map (fun x => ⟨x.start, x.stop, x.word, x.probability⟩),
      speaker_id⟩

/-- `TranscribeService.multi_channel` (lines 359–381), applied to the
segment list the whisper model returned for one channel: each segment is
converted in order, and the first zero-word segment aborts the whole call
with the `IndexError` of `words[0]`. -/
def multi_channel (segments : List WhisperSegment) (speaker_id : ℤ) :
    Except PyError (List MCSegment) :=
  segments.mapM (segment_to_dict speaker_id)

/-- C7, behaviour of the code at the claim's failing input: a channel
whose model output contains a zero-word segment makes `multi_channel`
raise a plain `IndexError` (the unguarded `words[0]` subscript) rather
than a deliberately raised error — while a segment with words does get its
start and end from the first word's start and the last word's end. -/
theorem c7_zero_words_index_error :
    multi_channel [⟨"hello", []⟩] 0 = .error .indexError ∧
      multi_channel [⟨"hi", [⟨"hi", 1, 2, 9/10⟩, ⟨"there", 3, 4, 4/5⟩]⟩] 5 =
        .ok [⟨1, 4, "hi", [⟨1, 2, "hi", 9/10⟩, ⟨3, 4, "there", 4/5⟩], 5⟩] :=
  ⟨rfl, rfl⟩

/-- Outcome of `DiarizeService.__call__`: `noSpeech` embeds the bare
`return None` of the empty-VAD branch (despite the declared `List[dict]`
return type), `ok` a normal segment list, `configError` the `ValueError`
a mismatched strict zip would raise. -/
inductive DiarizeResult where
  | noSpeech
  | ok (segments : List Stamp)
  | configError
deriving DecidableEq, Repr

/-- `DiarizeService.__call__` (lines 100–170): run VAD (its output is the
`vad_outputs` parameter, the segmentation and clustering networks are
opaque oracles); if VAD found no speech return `None` at once; otherwise
select duration-adaptive parameters, run segmentation then clustering, and
reconcile with `get_contiguous_stamps` followed by `merge_stamps`.  The
second component counts the neural-model invocations (segmentation and
clustering). -/
def diarize_call {α : Type} (vad_outputs : List (ℚ × ℚ))
    (d : DiarizeDefaults) (audio_duration : ℚ)
    (segmentation : ScaleParams → α) (clustering : α → List Stamp) :
    DiarizeResult × ℕ :=
  if vad_outputs.isEmpty then (.noSpeech, 0)
  else
    match selectScaleParams d audio_duration with
    | none => (.configError, 0)
    | some params =>
      (.ok (merge_stamps (get_contiguous_stamps
        (clustering (segmentation params)))), 2)

/-- C10: whenever the VAD service returns an empty speech-interval list,
`DiarizeService.__call__` returns `None` — which is distinct from every
(even empty) segment list — with zero model invocations, and the outcome
is independent of the configured defaults, the duration, and both neural
models, i.e. no parameter selection, segmentation, clustering or
reconciliation takes place. -/
theorem c10_empty_vad_returns_none {α β : Type} (vad : List (ℚ × ℚ))
    (d d' : DiarizeDefaults) (t t' : ℚ) (seg : ScaleParams → α)
    (seg' : ScaleParams → β) (clu : α → List Stamp) (clu' : β → List Stamp)
    (h : vad = []) :
    diarize_call vad d t seg clu = (.noSpeech, 0) ∧
      (∀ l : List Stamp, (DiarizeResult.noSpeech : DiarizeResult) ≠ .ok l) ∧
      diarize_call vad d t seg clu = diarize_call vad d' t' seg' clu' := by
  subst h
  refine ⟨rfl, fun l => by simp, rfl⟩

theorem c10_empty_vad_returns_none_witness :
    diarize_call [] ⟨[], [], []⟩ 0 (fun _ : ScaleParams => ())
        (fun _ => ([] : List Stamp)) = (.noSpeech, 0) :=
  (c10_empty_vad_returns_none [] ⟨[], [], []⟩ ⟨[], [], []⟩ 0 0
    (fun _ => ()) (fun _ => ()) (fun _ => []) (fun _ => []) rfl).1

/-- Modelled from the spec: the `DeviceModelPool` (the orchestrating ASR
service that leases device-indexed model replicas) is not among the
provided source files — only its spec (section 4.1) describes it.  A pool
of `n` replicas is modelled by the list of replica indices with an
outstanding lease; `acquire` suspends until some replica is free, so as a
transition it picks any replica with no outstanding lease; `release`
returns a leased replica to the free set. -/
structure PoolState (n : ℕ) where
  outstanding : List (Fin n)
deriving DecidableEq, Repr

/-- Modelled from the spec: one acquire or release transition of the pool.
`acquire` may only take a replica that is currently free; `release` may
only return a replica that is currently leased. -/
inductive PoolStep (n : ℕ) : PoolState n → PoolState n → Prop where
  | acquire (s : PoolState n) (r : Fin n) (hfree : r ∉ s.outstanding) :
      PoolStep n s ⟨r :: s.outstanding⟩
  | release (s : PoolState n) (r : Fin n) (hheld : r ∈ s.outstanding) :
      PoolStep n s ⟨s.outstanding.erase r⟩

/-- Pool states reachable from the initial all-free pool by any
interleaving of acquire and release transitions. -/
inductive PoolReachable (n : ℕ) : PoolState n → Prop where
  | init : PoolReachable n ⟨[]⟩
  | step {s t : PoolState n} :
      PoolReachable n s → PoolStep n s t → PoolReachable n t

theorem poolReachable_nodup {n : ℕ} {s : PoolState n}
    (h : PoolReachable n s) : s.outstanding.Nodup := by
  induction h with
  | init => simp
  | step _ hstep ih =>
    cases hstep with
    | acquire r hfree => exact List.nodup_cons.mpr ⟨hfree, ih⟩
    | release r hheld => exact ih.sublist (List.erase_sublist _ _)

/-- C9: in every pool state reachable by any sequence of acquire and
release operations on a pool of `n` replicas, at most `n` leases are
outstanding and no replica holds more than one simultaneous lease. -/
theorem c9_pool_mutual_exclusion {n : ℕ} {s : PoolState n}
    (h : PoolReachable n s) :
    s.outstanding.length ≤ n ∧
      ∀ r : Fin n, s.outstanding.count r ≤ 1 := by
  have hnd := poolReachable_nodup h
  constructor
  · simpa using hnd.length_le_card
  · exact fun r => List.nodup_iff_count_le_one.mp hnd r

theorem c9_pool_mutual_exclusion_witness :
    PoolReachable 2 ⟨[1, 0]⟩ ∧
      ([1, 0] : List (Fin 2)).length ≤ 2 ∧
      ∀ r : Fin 2, ([1, 0] : List (Fin 2)).count r ≤ 1 := by
  have h0 : PoolReachable 2 ⟨[]⟩ := .init
  have h1 : PoolReachable 2 ⟨[0]⟩ :=
    .step h0 (.acquire ⟨[]⟩ 0 (by simp))
  have h2 : PoolReachable 2 ⟨[1, 0]⟩ :=
    .step h1 (.acquire ⟨[0]⟩ 1 (by decide))
  exact ⟨h2, (c9_pool_mutual_exclusion h2).1, (c9_pool_mutual_exclusion h2).2⟩
